import Mathlib

/-!
Verification of the secret-santa draw engine and assignment vault.

The definitions below are a shallow embedding of the JavaScript sources:
`src/services/draw.js` (Hamiltonian-cycle draw), `src/models/assignment.js`
(encrypted assignment store), `src/services/mailer.js` (batch mail send),
and the method surfaces of the model objects in `src/models/`.

JavaScript `Math.random()`-driven shuffles are modelled by explicit
parameters: a `DrawRand` record supplies, per attempt, the shuffled participant
order and the receiver-order shuffle function; theorems that depend on the
shuffles being genuine permutations take that as a hypothesis.
Database rows are modelled as Lean lists, one prepared statement at a time,
with `better-sqlite3` transactions rolled back on failure.
-/

/-- A participant row as the draw service reads it: `id`, `first_name`,
`last_name` (`src/models/participant.js`). -/
structure Participant where
  id : Nat
  first_name : String
  last_name : String
deriving DecidableEq, Repr

/-- Sequential `for`-loop search: return the first `some` produced by `f`
on the elements of the list, `none` if every call fails. -/
def firstSome {α β : Type} (f : α → Option β) : List α → Option β
  | [] => none
  | a :: rest =>
    match f a with
    | some b => some b
    | none => firstSome f rest

/-- Adjacency list of `generateHamiltonianCycle` (draw.js lines 57-63):
`possible = ids.filter(r => r !== giver && !excluded.includes(r))`,
where `excluded = exclusionMap.get(giver) || []` is modelled by `excl`. -/
def canGiveTo (ids : List Nat) (excl : Nat → List Nat) (giver : Nat) : List Nat :=
  ids.filter (fun r => r != giver && !((excl giver).contains r))

/-- One attempt's random choices: the shuffled copy of `ids`
(`[...ids].sort(() => Math.random() - 0.5)`) and the shuffle applied to
each receiver list inside the backtracking search. -/
structure DrawRand where
  shuffled : List Nat
  shufRec : List Nat → List Nat

/-- Cycle-closing test of `tryBuildCycle` (draw.js lines 90-96): when the
partial cycle holds all `n` participants, accept iff the last participant
may give to the first.  `rcycle` is the partial cycle in reverse order
(head = JS `cycle[cycle.length - 1]`, last = JS `cycle[0]`). -/
def closeCheck (cgt : Nat → List Nat) (rcycle : List Nat) : Option (List Nat) :=
  match rcycle.head?, rcycle.getLast? with
  | some lastP, some firstP => if firstP ∈ cgt lastP then some rcycle else none
  | _, _ => none

/-- The recursive `backtrack` closure of `tryBuildCycle` (draw.js lines
89-119).  The partial cycle is kept in reverse order so its head is the JS
`current`; the `used` set of the source equals membership in `rcycle`.
`fuel` bounds the recursion depth; the caller passes `n`, which is never
exhausted because each recursive call grows the cycle by one element. -/
def backtrack (cgt : Nat → List Nat) (n : Nat) (sh : List Nat → List Nat) :
    Nat → List Nat → Option (List Nat)
  | 0, rcycle => if rcycle.length = n then closeCheck cgt rcycle else none
  | fuel + 1, rcycle =>
    if rcycle.length = n then closeCheck cgt rcycle
    else
      match rcycle.head? with
      | none => none
      | some current =>
        firstSome
          (fun r => if r ∈ rcycle then none else backtrack cgt n sh fuel (r :: rcycle))
          (sh (cgt current))

/-- Conversion of a completed cycle (in source order) to the assignment
list (draw.js lines 121-129): pair `i` is
`(cycle[i], cycle[(i + 1) % n])`. -/
def assignmentsOf (cycle : List Nat) : List (Nat × Nat) :=
  (List.range cycle.length).map
    (fun i => (cycle.getD i 0, cycle.getD ((i + 1) % cycle.length) 0))

/-- `tryBuildCycle(ids, canGiveTo)` (draw.js lines 79-134) for one attempt:
start from the head of the shuffled id list, run the backtracking search,
and on success convert the completed cycle to assignments. -/
def tryBuildCycle (ids : List Nat) (cgt : Nat → List Nat) (rand : DrawRand) :
    Option (List (Nat × Nat)) :=
  match rand.shuffled.head? with
  | none => none
  | some s0 =>
    match backtrack cgt ids.length rand.shufRec ids.length [s0] with
    | none => none
    | some rcycle => some (assignmentsOf rcycle.reverse)

/-- `generateHamiltonianCycle(participants, exclusionMap)` (draw.js lines
53-74): build the adjacency list over the participant ids, then try
`tryBuildCycle` for up to 100 attempts, returning the first success. -/
def generateHamiltonianCycle (participants : List Participant) (excl : Nat → List Nat)
    (rands : Nat → DrawRand) : Option (List (Nat × Nat)) :=
  let ids := participants.map (fun p => p.id)
  firstSome (fun attempt => tryBuildCycle ids (canGiveTo ids excl) (rands attempt))
    (List.range 100)

/-- Failure message of `performDraw` for fewer than 2 participants. -/
def insufficientMsg : String :=
  "Il faut au moins 2 participants pour effectuer un tirage."

/-- Failure message of `performDraw` when no valid cycle was found. -/
def noValidCycleMsg : String :=
  "Impossible de generer un tirage valide avec les regles d\x27exclusion actuelles. " ++
    "Il y a peut-etre trop d\x27exclusions."

/-- Success message of `performDraw`. -/
def successMsg (n : Nat) : String :=
  "Tirage effectue avec succes pour " ++ toString n ++ " participants."

/-- The result object `{ success, message, count? }` of `performDraw`. -/
structure DrawResult where
  success : Bool
  message : String
  count : Option Nat
deriving DecidableEq, Repr

/-- A persisted assignment row (table `assignments`); `receiver` stands for
the stored `(receiver_hash, encrypted_receiver)` payload of the row. -/
structure Row where
  giver_id : Nat
  receiver : Nat
deriving DecidableEq, Repr

/-- `Assignment.clearAllByGroup` (assignment.js lines 67-73): the single
`DELETE` statement removing every assignment whose giver belongs to the
scope; `memberIds` models the `SELECT id FROM participants WHERE group_id`
subquery. -/
def clearAllByGroup (memberIds : List Nat) (rows : List Row) : List Row :=
  rows.filter (fun r => !(memberIds.contains r.giver_id))

/-- The insert loop inside `Assignment.createMany`'s transaction
(assignment.js lines 52-58), with an injected failure point: `failAt i`
means the `i`-th `insert.run` throws. Returns `none` when the transaction
body throws part-way. -/
def insertLoop (failAt : Nat → Bool) : List (Nat × Nat) → Nat → List Row → Option (List Row)
  | [], _, rows => some rows
  | p :: rest, i, rows =>
    if failAt i then none
    else insertLoop failAt rest (i + 1) (rows ++ [⟨p.1, p.2⟩])

/-- `Assignment.createMany(assignments)` (assignment.js lines 47-62): the
inserts run inside one `db.transaction`, so a throw part-way rolls every
insert back (second component `false`); on success all rows are appended. -/
def createMany (items : List (Nat × Nat)) (failAt : Nat → Bool) (rows : List Row) :
    List Row × Bool :=
  match insertLoop failAt items 0 rows with
  | some newRows => (newRows, true)
  | none => (rows, false)

/-- The persistence step of `performDraw` (draw.js lines 38-40): first the
clear-all `DELETE` statement, then — separately — `createMany`'s insert
transaction. -/
def persistDraw (memberIds : List Nat) (pairs : List (Nat × Nat)) (failAt : Nat → Bool)
    (rows : List Row) : List Row × Bool :=
  createMany pairs failAt (clearAllByGroup memberIds rows)

/-- `performDraw` (draw.js lines 15-47) at the spec contract level
(`performDraw(participants, exclusions) -> Result`, spec section 4.1): the
roster and exclusion map are the fetched inputs, and the assignment store
is threaded explicitly.  Fewer than 2 participants fail first; a failed
cycle generation fails second; otherwise prior assignments of the scope
are cleared, the new ones inserted, and the success result returned. -/
def performDraw (participants : List Participant) (excl : Nat → List Nat) (rands : Nat → DrawRand)
    (store : List Row) : DrawResult × List Row :=
  if participants.length < 2 then
    (⟨false, insufficientMsg, none⟩, store)
  else
    match generateHamiltonianCycle participants excl rands with
    | none => (⟨false, noValidCycleMsg, none⟩, store)
    | some assignments =>
      let cleared := clearAllByGroup (participants.map (fun p => p.id)) store
      (⟨true, successMsg participants.length, some participants.length⟩,
        (createMany assignments (fun _ => false) cleared).1)

/-- The result object `{ possible, reason? }` of `canPerformDraw`. -/
structure CanResult where
  possible : Bool
  reason : Option String
deriving DecidableEq, Repr

/-- The blocked-participant reason string of `canPerformDraw`
(draw.js line 156). -/
def noReceiverMsg (p : Participant) : String :=
  p.first_name ++ " " ++ p.last_name ++ " n\x27a aucun receveur possible"

/-- `canPerformDraw` (draw.js lines 140-162) at the same contract level:
reject fewer than 2 participants, then flag the first participant whose
count `participants.length - 1 - excluded.length` is below 1, naming them
in the reason string. -/
def canPerformDraw (participants : List Participant) (excl : Nat → List Nat) : CanResult :=
  if participants.length < 2 then
    ⟨false, some "Pas assez de participants"⟩
  else
    match participants.find?
        (fun p => decide ((participants.length : Int) - 1 - ((excl p.id).length : Int) < 1)) with
    | some p => ⟨false, some (noReceiverMsg p)⟩
    | none => ⟨true, none⟩

/-! ### Method surfaces of the model objects

`performDraw` and `canPerformDraw` in `src/services/draw.js` call
`Participant.findAllByOrganizer`, `Exclusion.getExclusionMapByOrganizer`
and `Assignment.clearAllByOrganizer`.  JavaScript resolves such a call by
property lookup on the model object: a name that is not a defined method
yields `undefined`, and applying it raises a `TypeError`.  The lists below
are the method names actually defined on the model objects, copied from
`src/models/participant.js` (lines 4-148), `src/models/exclusion.js`
(lines 3-101) and `src/models/assignment.js` (lines 6-185). -/

/-- Methods of the `Participant` model object. -/
def participantMethods : List String :=
  ["create", "findById", "findByIdAndGroup", "findAllByGroup", "countByGroup",
   "delete", "emailExistsForGroup", "findByEmail", "findByEditToken", "countAll",
   "updateWishes", "update"]

/-- Methods of the `Exclusion` model object. -/
def exclusionMethods : List String :=
  ["create", "delete", "deleteByGroup", "deleteByPair", "findAllByGroup",
   "findByGiver", "getExclusionMapByGroup", "exists"]

/-- Methods of the `Assignment` model object. -/
def assignmentMethods : List String :=
  ["encrypt", "decrypt", "hash", "create", "createMany", "clearAllByGroup",
   "drawExistsByGroup", "getForGiver", "findAllForGroup", "findAllDecryptedByGroup",
   "markEmailSent", "countPendingEmailsByGroup", "countSentEmailsByGroup"]

/-- Outcome of a JavaScript call: a returned value, or a thrown `TypeError`
naming the undefined callee. -/
inductive JsOutcome (α : Type) where
  | ok (value : α)
  | typeError (callee : String)
deriving DecidableEq, Repr

/-- What the database would supply to the draw service, had the scoped
lookups existed: the roster and the exclusion map per scope id. -/
structure DbEnv where
  participantsOf : Nat → List Participant
  exclusionMapOf : Nat → Nat → List Nat

/-- `performDraw(organizerId)` (draw.js lines 15-47) with JavaScript method
dispatch made explicit: each model call first checks that the invoked name
is a method defined on the model object, and raises `TypeError` otherwise,
in source order. -/
def performDrawJs (env : DbEnv) (rands : Nat → DrawRand) (store : List Row)
    (organizerId : Nat) : JsOutcome (DrawResult × List Row) :=
  if !(participantMethods.contains "findAllByOrganizer") then
    .typeError "Participant.findAllByOrganizer"
  else
    let participants := env.participantsOf organizerId
    if participants.length < 2 then
      .ok (⟨false, insufficientMsg, none⟩, store)
    else if !(exclusionMethods.contains "getExclusionMapByOrganizer") then
      .typeError "Exclusion.getExclusionMapByOrganizer"
    else
      match generateHamiltonianCycle participants (env.exclusionMapOf organizerId) rands with
      | none => .ok (⟨false, noValidCycleMsg, none⟩, store)
      | some assignments =>
        if !(assignmentMethods.contains "clearAllByOrganizer") then
          .typeError "Assignment.clearAllByOrganizer"
        else
          let cleared := clearAllByGroup (participants.map (fun p => p.id)) store
          .ok (⟨true, successMsg participants.length, some participants.length⟩,
            (createMany assignments (fun _ => false) cleared).1)

/-- `canPerformDraw(organizerId)` (draw.js lines 140-162) with JavaScript
method dispatch made explicit. -/
def canPerformDrawJs (env : DbEnv) (organizerId : Nat) : JsOutcome CanResult :=
  if !(participantMethods.contains "findAllByOrganizer") then
    .typeError "Participant.findAllByOrganizer"
  else
    let participants := env.participantsOf organizerId
    if participants.length < 2 then
      .ok ⟨false, some "Pas assez de participants"⟩
    else if !(exclusionMethods.contains "getExclusionMapByOrganizer") then
      .typeError "Exclusion.getExclusionMapByOrganizer"
    else
      .ok (canPerformDraw participants (env.exclusionMapOf organizerId))

/-! ### Assignment vault encryption (`src/models/assignment.js` lines 4-20)

`CryptoJS.AES` is an external library; per spec section 4.2 it is
deterministic-key, non-deterministic-IV symmetric encryption.  It is
modelled as an abstract record whose encryption takes the fresh random
salt chosen inside each `CryptoJS.AES.encrypt` call as an explicit
argument; its defining properties are hypotheses of the round-trip
theorem. -/

/-- The process-wide key (`process.env.ENCRYPTION_KEY` fallback value,
assignment.js line 4). -/
def ENCRYPTION_KEY : String := "default_key_32_characters_long!"

/-- Abstract model of the `CryptoJS.AES` primitives over ciphertext type
`Ct`: `aesEncrypt message key salt` models `CryptoJS.AES.encrypt(message,
key).toString()` with `salt` the randomness drawn inside the call, and
`aesDecryptUtf8 ct key` models
`CryptoJS.AES.decrypt(ct, key).toString(CryptoJS.enc.Utf8)`. -/
structure CryptoLib (Ct : Type) where
  aesEncrypt : String → String → Nat → Ct
  aesDecryptUtf8 : Ct → String → String

/-- Abstract model of the JavaScript number/string builtins used by the
vault: `toStr` models `String(receiverId)` and `parseInt10` models
`parseInt(s, 10)`; on the decimal strings `String` produces for ids,
`parseInt` inverts it. -/
structure JsNum where
  toStr : Nat → String
  parseInt10 : String → Nat

/-- `Assignment.encrypt(receiverId)` (assignment.js lines 10-12):
`CryptoJS.AES.encrypt(String(receiverId), ENCRYPTION_KEY).toString()`. -/
def Assignment.encrypt {Ct : Type} (js : JsNum) (lib : CryptoLib Ct) (salt : Nat)
    (receiverId : Nat) : Ct :=
  lib.aesEncrypt (js.toStr receiverId) ENCRYPTION_KEY salt

/-- `Assignment.decrypt(encryptedReceiver)` (assignment.js lines 17-20):
`parseInt(bytes.toString(CryptoJS.enc.Utf8), 10)`. -/
def Assignment.decrypt {Ct : Type} (js : JsNum) (lib : CryptoLib Ct)
    (encryptedReceiver : Ct) : Nat :=
  js.parseInt10 (lib.aesDecryptUtf8 encryptedReceiver ENCRYPTION_KEY)

/-- A concrete `JsNum` instance used to witness the round-trip theorem:
unary strings, with `parseInt10` reading the length. -/
def witnessJsNum : JsNum :=
  ⟨fun n => String.mk (List.replicate n 'a'), fun s => s.data.length⟩

/-- A concrete `CryptoLib` instance used to witness the round-trip
theorem: a ciphertext records the message, the key and the salt. -/
def witnessCrypto : CryptoLib (String × String × Nat) :=
  ⟨fun m k s => (m, k, s), fun c _ => c.1⟩

/-- Formalisation of "the message names `name`": `name` occurs verbatim
inside `msg` (contiguous substring on the underlying character lists). -/
def mentions (name msg : String) : Prop :=
  name.data <:+: msg.data

/-! ### Batch mail send (`src/services/mailer.js` lines 328-383 and
`src/models/assignment.js` lines 123-148) -/

/-- An `assignments` row as read by `findAllDecryptedByGroup`, with the
giver columns joined in. -/
structure ARow where
  id : Nat
  giver_id : Nat
  giver_email : String
  email_sent : Bool
  encrypted_receiver : Nat
deriving DecidableEq, Repr

/-- A decrypted assignment as returned by
`Assignment.findAllDecryptedByGroup`. -/
structure DecRow where
  row : ARow
  receiver_id : Nat
deriving DecidableEq, Repr

/-- The giver-email column carried through to `sendLoop`'s error records
(the `...a` spread in `findAllDecryptedByGroup`). -/
def DecRow.giver_email (a : DecRow) : String := a.row.giver_email

/-- `Assignment.findAllDecryptedByGroup(groupId)` (assignment.js lines
123-148): decrypt `encrypted_receiver` of EVERY assignment row of the
group — sent or not — in one `.map`; `dec` is the fallible decryption
(`none` models a thrown decryption error, which aborts the whole call). -/
def findAllDecryptedByGroup (dec : Nat → Option Nat) : List ARow → Option (List DecRow)
  | [] => some []
  | a :: rest =>
    match dec a.encrypted_receiver with
    | none => none
    | some rid =>
      match findAllDecryptedByGroup dec rest with
      | none => none
      | some ds => some (⟨a, rid⟩ :: ds)

/-- The batch result object of `sendAllEmails`:
`{ success, message, sent, failed, errors }` where each error entry is
`{ email, error }`. -/
structure SendResult where
  success : Bool
  message : String
  sent : Nat
  failed : Nat
  errors : List (String × String)
deriving DecidableEq, Repr

/-- The send loop of `sendAllEmails` (mailer.js lines 360-374): one
`try { sendEmail } catch` per pending assignment; `send a = some e` models
`sendEmail` throwing with message `e`, `none` a successful delivery. -/
def sendLoop (send : DecRow → Option String) :
    List DecRow → Nat → Nat → List (String × String) → Nat × Nat × List (String × String)
  | [], sent, failed, errors => (sent, failed, errors)
  | a :: rest, sent, failed, errors =>
    match send a with
    | none => sendLoop send rest (sent + 1) failed errors
    | some e => sendLoop send rest sent (failed + 1) (errors ++ [(a.giver_email, e)])

/-- `sendAllEmails(groupId)` (mailer.js lines 328-383): after the SMTP
configuration guard, decrypt all of the group's assignments
(`findAllDecryptedByGroup` — a thrown decryption error propagates, giving
`none`), filter the pending ones (`!a.email_sent`), and run the send loop,
reporting sent/failed counts and the failed recipients. -/
def sendAllEmails (configured : Bool) (dec : Nat → Option Nat)
    (send : DecRow → Option String) (rows : List ARow) : Option SendResult :=
  if !configured then
    some ⟨false, "SMTP non configure. Verifiez les variables d\x27environnement.", 0, 0, []⟩
  else
    match findAllDecryptedByGroup dec rows with
    | none => none
    | some assignments =>
      let pending := assignments.filter (fun a => !a.row.email_sent)
      if pending.length = 0 then
        some ⟨true, "Tous les emails ont deja ete envoyes.", 0, 0, []⟩
      else
        match sendLoop send pending 0 0 [] with
        | (sent, failed, errors) =>
          if 0 < failed then
            some ⟨false, toString sent ++ " emails envoyes, " ++ toString failed ++ " echecs.",
              sent, failed, errors⟩
          else
            some ⟨true, toString sent ++ " emails envoyes avec succes.", sent, failed, errors⟩

/-- Formalisation of "follow the receiver pointer": look up a giver's
receiver in the assignment list (first matching pair, as association-list
lookup). -/
def nextOf (pairs : List (Nat × Nat)) (g : Nat) : Nat :=
  (pairs.lookup g).getD 0

/-- Validity of the random choices of one attempt: the shuffled id list is
a permutation of the ids, and the receiver shuffle permutes its input —
what `Array.prototype.sort` with a random comparator always produces. -/
def ValidRand (ids : List Nat) (rand : DrawRand) : Prop :=
  rand.shuffled.Perm ids ∧ ∀ l, (rand.shufRec l).Perm l

/-! ### Helper lemmas -/

lemma firstSome_eq_some {α β : Type} {f : α → Option β} {l : List α} {b : β}
    (h : firstSome f l = some b) : ∃ a ∈ l, f a = some b := by
  induction l with
  | nil => simp [firstSome] at h
  | cons a rest ih =>
    rw [firstSome] at h
    cases hfa : f a with
    | some b' =>
      rw [hfa] at h
      exact ⟨a, List.mem_cons_self a rest, hfa.trans h⟩
    | none =>
      rw [hfa] at h
      obtain ⟨x, hx, hfx⟩ := ih h
      exact ⟨x, List.mem_cons_of_mem a hx, hfx⟩

lemma firstSome_eq_none {α β : Type} {f : α → Option β} {l : List α}
    (h : ∀ a ∈ l, f a = none) : firstSome f l = none := by
  induction l with
  | nil => rfl
  | cons a rest ih =>
    rw [firstSome, h a (List.mem_cons_self a rest)]
    exact ih fun x hx => h x (List.mem_cons_of_mem a hx)

lemma firstSome_congr {α β : Type} {f g : α → Option β} {l : List α}
    (h : ∀ a ∈ l, f a = g a) : firstSome f l = firstSome g l := by
  induction l with
  | nil => rfl
  | cons a rest ih =>
    rw [firstSome, firstSome, h a (List.mem_cons_self a rest)]
    rw [ih fun x hx => h x (List.mem_cons_of_mem a hx)]

lemma mem_canGiveTo {ids : List Nat} {excl : Nat → List Nat} {g r : Nat} :
    r ∈ canGiveTo ids excl g ↔ r ∈ ids ∧ r ≠ g ∧ r ∉ excl g := by
  simp [canGiveTo, List.mem_filter, and_assoc]

lemma canGiveTo_ne {ids : List Nat} {excl : Nat → List Nat} {g r : Nat}
    (h : r ∈ canGiveTo ids excl g) : r ≠ g :=
  (mem_canGiveTo.mp h).2.1

lemma canGiveTo_not_excluded {ids : List Nat} {excl : Nat → List Nat} {g r : Nat}
    (h : r ∈ canGiveTo ids excl g) : r ∉ excl g :=
  (mem_canGiveTo.mp h).2.2

lemma canGiveTo_mem_ids {ids : List Nat} {excl : Nat → List Nat} {g r : Nat}
    (h : r ∈ canGiveTo ids excl g) : r ∈ ids :=
  (mem_canGiveTo.mp h).1

lemma closeCheck_eq_some {cgt : Nat → List Nat} {rcycle c : List Nat}
    (h : closeCheck cgt rcycle = some c) :
    c = rcycle ∧ ∃ lastP firstP, rcycle.head? = some lastP ∧
      rcycle.getLast? = some firstP ∧ firstP ∈ cgt lastP := by
  cases h1 : rcycle.head? with
  | none =>
    cases h2 : rcycle.getLast? <;> simp only [closeCheck, h1, h2] at h <;> cases h
  | some lastP =>
    cases h2 : rcycle.getLast? with
    | none => simp only [closeCheck, h1, h2] at h; cases h
    | some firstP =>
      simp only [closeCheck, h1, h2] at h
      by_cases hmem : firstP ∈ cgt lastP
      · rw [if_pos hmem] at h
        exact ⟨(Option.some_injective _ h).symm, lastP, firstP, rfl, rfl, hmem⟩
      · rw [if_neg hmem] at h; cases h

/-- Soundness invariant of the backtracking search: a successful result has
length `n`, extends the partial cycle, preserves nodup and the (reversed)
edge chain, only adds receivers drawn from the adjacency lists, and
satisfies the closing-edge check. -/
lemma backtrack_sound {cgt : Nat → List Nat} {n : Nat} {sh : List Nat → List Nat}
    (hsh : ∀ l, (sh l).Perm l) :
    ∀ fuel rcycle c, backtrack cgt n sh fuel rcycle = some c →
      c.length = n ∧ rcycle <:+ c ∧ (rcycle.Nodup → c.Nodup) ∧
      (rcycle.Chain' (fun a b => a ∈ cgt b) → c.Chain' (fun a b => a ∈ cgt b)) ∧
      (∀ x ∈ c, x ∈ rcycle ∨ ∃ g, x ∈ cgt g) ∧
      ∃ lastP firstP, c.head? = some lastP ∧ c.getLast? = some firstP ∧ firstP ∈ cgt lastP := by
  intro fuel
  induction fuel with
  | zero =>
    intro rcycle c h
    rw [backtrack] at h
    by_cases hlen : rcycle.length = n
    · rw [if_pos hlen] at h
      obtain ⟨rfl, hclose⟩ := closeCheck_eq_some h
      exact ⟨hlen, List.suffix_refl _, id, id, fun x hx => Or.inl hx, hclose⟩
    · rw [if_neg hlen] at h; cases h
  | succ fuel ih =>
    intro rcycle c h
    rw [backtrack] at h
    by_cases hlen : rcycle.length = n
    · rw [if_pos hlen] at h
      obtain ⟨rfl, hclose⟩ := closeCheck_eq_some h
      exact ⟨hlen, List.suffix_refl _, id, id, fun x hx => Or.inl hx, hclose⟩
    · rw [if_neg hlen] at h
      cases hcur : rcycle.head? with
      | none => rw [hcur] at h; cases h
      | some current =>
        rw [hcur] at h
        obtain ⟨r, hrmem, hr⟩ := firstSome_eq_some h
        by_cases hrin : r ∈ rcycle
        · rw [if_pos hrin] at hr; cases hr
        · rw [if_neg hrin] at hr
          obtain ⟨hlen', hsuf, hnd, hch, hmem, hclose⟩ := ih (r :: rcycle) c hr
          have hrcgt : r ∈ cgt current := ((hsh (cgt current)).mem_iff).mp hrmem
          refine ⟨hlen', ?_, ?_, ?_, ?_, hclose⟩
          · exact (List.suffix_cons r rcycle).trans hsuf
          · intro hnodup
            exact hnd (List.nodup_cons.mpr ⟨hrin, hnodup⟩)
          · intro hchain
            refine hch (List.chain'_cons'.mpr ⟨?_, hchain⟩)
            intro y hy
            rw [hcur] at hy
            cases hy
            exact hrcgt
          · intro x hx
            rcases hmem x hx with hx' | hx'
            · rcases List.mem_cons.mp hx' with rfl | hx''
              · exact Or.inr ⟨current, hrcgt⟩
              · exact Or.inl hx''
            · exact Or.inr hx'

lemma assignmentsOf_eq_zip {l : List Nat} (hpos : 0 < l.length) :
    assignmentsOf l = l.zip (l.rotate 1) := by
  apply List.ext_get
  · simp [assignmentsOf]
  · intro i h1 h2
    have hi : i < l.length := by simpa [assignmentsOf] using h1
    have hmod : (i + 1) % l.length < l.length := Nat.mod_lt _ hpos
    simp only [assignmentsOf, List.get_eq_getElem, List.getElem_map, List.getElem_range,
      List.getElem_zip]
    rw [List.getD_eq_getElem _ _ hi, List.getD_eq_getElem _ _ hmod]
    congr 1
    rw [List.getElem_rotate]

lemma assignmentsOf_map_fst {l : List Nat} (hpos : 0 < l.length) :
    (assignmentsOf l).map Prod.fst = l := by
  rw [assignmentsOf_eq_zip hpos]
  exact List.map_fst_zip _ _ (by simp)

lemma assignmentsOf_map_snd {l : List Nat} (hpos : 0 < l.length) :
    (assignmentsOf l).map Prod.snd = l.rotate 1 := by
  rw [assignmentsOf_eq_zip hpos]
  exact List.map_snd_zip _ _ (by simp)

lemma mem_assignmentsOf {l : List Nat} {pr : Nat × Nat} :
    pr ∈ assignmentsOf l ↔
      ∃ i, i < l.length ∧ pr = (l.getD i 0, l.getD ((i + 1) % l.length) 0) := by
  simp only [assignmentsOf, List.mem_map, List.mem_range]
  constructor
  · rintro ⟨i, hi, rfl⟩; exact ⟨i, hi, rfl⟩
  · rintro ⟨i, hi, rfl⟩; exact ⟨i, hi, rfl⟩

lemma getD_zero_of_head? {l : List Nat} {a : Nat} (h : l.head? = some a) :
    l.getD 0 0 = a := by
  cases l with
  | nil => cases h
  | cons x xs => simp at h; simp [h]

lemma getD_last_of_getLast? {l : List Nat} {a : Nat} (h : l.getLast? = some a) :
    l.getD (l.length - 1) 0 = a := by
  have hne : l ≠ [] := by rintro rfl; cases h
  have hpos : 0 < l.length := List.length_pos.mpr hne
  rw [List.getLast?_eq_getLast_of_ne_nil hne] at h
  rw [List.getD_eq_get _ _ (by omega), ← List.getLast_eq_get l hne]
  exact Option.some_injective _ h

/-- The per-index edge property of a completed cycle: relation `R` holds
between every element and its cyclic successor, from the chain on
consecutive elements plus the closing edge. -/
lemma edges_of_chain_close {R : Nat → Nat → Prop} {l : List Nat} (hpos : 0 < l.length)
    (hch : l.Chain' R) (hcl : R (l.getD (l.length - 1) 0) (l.getD 0 0)) :
    ∀ i < l.length, R (l.getD i 0) (l.getD ((i + 1) % l.length) 0) := by
  intro i hi
  rcases Nat.lt_or_ge i (l.length - 1) with hlt | hge
  · have h1 : i + 1 < l.length := by omega
    have hmod : (i + 1) % l.length = i + 1 := Nat.mod_eq_of_lt h1
    rw [hmod, List.getD_eq_get _ _ hi, List.getD_eq_get _ _ h1]
    exact List.chain'_iff_get.mp hch i (by omega)
  · have heq : i = l.length - 1 := by omega
    subst heq
    have hmod : (l.length - 1 + 1) % l.length = 0 := by
      rw [Nat.sub_add_cancel hpos, Nat.mod_self]
    rw [hmod]
    exact hcl

/-- Structure of any successful `tryBuildCycle` attempt: the output is the
assignment list of a duplicate-free cycle over the participant ids, of
full length, whose every cyclic edge lies in the adjacency list. -/
lemma tryBuildCycle_sound {ids : List Nat} {excl : Nat → List Nat} {rand : DrawRand}
    (hshuffled : rand.shuffled.Perm ids) (hsh : ∀ l, (rand.shufRec l).Perm l)
    {pairs : List (Nat × Nat)}
    (h : tryBuildCycle ids (canGiveTo ids excl) rand = some pairs) :
    ∃ cycle : List Nat, pairs = assignmentsOf cycle ∧ cycle.length = ids.length ∧
      0 < cycle.length ∧ cycle.Nodup ∧ (∀ x ∈ cycle, x ∈ ids) ∧
      ∀ i < cycle.length,
        cycle.getD ((i + 1) % cycle.length) 0 ∈ canGiveTo ids excl (cycle.getD i 0) := by
  unfold tryBuildCycle at h
  split at h
  · cases h
  · rename_i s0 hhead
    split at h
    · cases h
    · rename_i rc hbt
      obtain ⟨hlen, hsuf, hnd, hch, hmem, lastP, firstP, hh, hl, hedge⟩ :=
        backtrack_sound hsh ids.length [s0] rc hbt
      have hs0 : s0 ∈ ids := hshuffled.mem_iff.mp (List.mem_of_mem_head? hhead)
      have hrcne : rc ≠ [] := by
        rintro rfl
        obtain ⟨t, ht⟩ := hsuf
        cases t <;> simp at ht
      refine ⟨rc.reverse, (Option.some_injective _ h).symm, by simpa using hlen, ?_, ?_, ?_, ?_⟩
      · simpa using List.length_pos.mpr hrcne
      · exact (List.nodup_reverse).mpr (hnd (List.nodup_singleton s0))
      · intro x hx
        rcases hmem x (List.mem_reverse.mp hx) with hx' | ⟨g, hx'⟩
        · rcases List.mem_singleton.mp hx' with rfl
          exact hs0
        · exact canGiveTo_mem_ids hx'
      · have hchain : rc.reverse.Chain'
            (fun a b => b ∈ canGiveTo ids excl a) := by
          rw [List.chain'_reverse]
          exact hch (List.chain'_singleton s0)
        have hclose :
            rc.reverse.getD 0 0 ∈ canGiveTo ids excl (rc.reverse.getD (rc.reverse.length - 1) 0) := by
          have h1 : rc.reverse.head? = some firstP := by
            rw [List.head?_reverse]; exact hl
          have h2 : rc.reverse.getLast? = some lastP := by
            rw [List.getLast?_eq_head?_reverse, List.reverse_reverse]; exact hh
          rw [getD_zero_of_head? h1, getD_last_of_getLast? h2]
          exact hedge
        exact edges_of_chain_close (by simpa using List.length_pos.mpr hrcne) hchain hclose

lemma lookup_zip_getD {ks vs : List Nat} (hnd : ks.Nodup) :
    ∀ i, i < ks.length → ks.length ≤ vs.length →
      List.lookup (ks.getD i 0) (ks.zip vs) = some (vs.getD i 0) := by
  induction ks generalizing vs with
  | nil => intro i hi _; cases hi
  | cons k ks ih =>
    intro i hi hlen
    cases vs with
    | nil => simp at hlen
    | cons v vs =>
      cases i with
      | zero => simp [List.lookup]
      | succ i =>
        have hi' : i < ks.length := Nat.lt_of_succ_lt_succ hi
        have hne : ks.getD i 0 ≠ k := by
          intro hk
          have : ks.getD i 0 ∈ ks := by
            rw [List.getD_eq_getElem _ _ hi']
            exact List.getElem_mem _
          rw [hk] at this
          exact (List.nodup_cons.mp hnd).1 this
        have hbeq : (ks.getD i 0 == k) = false := beq_eq_false_iff_ne.mpr hne
        simp only [List.getD_cons_succ, List.zip_cons_cons, List.lookup, hbeq]
        exact ih (List.nodup_cons.mp hnd).2 i hi' (Nat.le_of_succ_le_succ hlen)

lemma nextOf_assignmentsOf {cycle : List Nat} (hnd : cycle.Nodup) (hpos : 0 < cycle.length)
    {i : Nat} (hi : i < cycle.length) :
    nextOf (assignmentsOf cycle) (cycle.getD i 0) =
      cycle.getD ((i + 1) % cycle.length) 0 := by
  rw [nextOf, assignmentsOf_eq_zip hpos,
    lookup_zip_getD hnd i hi (by simp), Option.getD_some]
  rw [List.getD_eq_getElem _ _ (by simpa using hi), List.getElem_rotate,
    List.getD_eq_getElem _ _ (Nat.mod_lt _ hpos)]

lemma nextOf_iterate {cycle : List Nat} (hnd : cycle.Nodup) (hpos : 0 < cycle.length) :
    ∀ k i, i < cycle.length →
      (nextOf (assignmentsOf cycle))^[k] (cycle.getD i 0) =
        cycle.getD ((i + k) % cycle.length) 0 := by
  intro k
  induction k with
  | zero =>
    intro i hi
    simp [Nat.mod_eq_of_lt hi]
  | succ k ih =>
    intro i hi
    rw [Function.iterate_succ_apply, nextOf_assignmentsOf hnd hpos hi,
      ih ((i + 1) % cycle.length) (Nat.mod_lt _ hpos), Nat.mod_add_mod,
      show i + 1 + k = i + (k + 1) from by omega]

lemma orbit_eq_rotate {cycle : List Nat} (hnd : cycle.Nodup) (hpos : 0 < cycle.length)
    {i : Nat} (hi : i < cycle.length) :
    (List.range cycle.length).map
        (fun k => (nextOf (assignmentsOf cycle))^[k] (cycle.getD i 0)) =
      cycle.rotate i := by
  apply List.ext_get
  · simp
  · intro k h1 h2
    have hk : k < cycle.length := by simpa using h1
    simp only [List.get_eq_getElem, List.getElem_map, List.getElem_range]
    rw [nextOf_iterate hnd hpos k i hi, List.getElem_rotate,
      List.getD_eq_getElem _ _ (Nat.mod_lt _ hpos),
      show k + i = i + k from Nat.add_comm k i]

lemma generateHamiltonianCycle_sound {participants : List Participant}
    {excl : Nat → List Nat} {rands : Nat → DrawRand} {pairs : List (Nat × Nat)}
    (hvalid : ∀ i, ValidRand (participants.map (fun p => p.id)) (rands i))
    (h : generateHamiltonianCycle participants excl rands = some pairs) :
    ∃ cycle : List Nat,
      pairs = assignmentsOf cycle ∧
      cycle.length = (participants.map (fun p => p.id)).length ∧
      0 < cycle.length ∧ cycle.Nodup ∧
      (∀ x ∈ cycle, x ∈ participants.map (fun p => p.id)) ∧
      ∀ i < cycle.length,
        cycle.getD ((i + 1) % cycle.length) 0 ∈
          canGiveTo (participants.map (fun p => p.id)) excl (cycle.getD i 0) := by
  unfold generateHamiltonianCycle at h
  obtain ⟨a, _, ha⟩ := firstSome_eq_some h
  exact tryBuildCycle_sound (hvalid a).1 (hvalid a).2 ha

lemma cycle_perm_ids {cycle ids : List Nat} (hnd : cycle.Nodup)
    (hlen : cycle.length = ids.length) (hsub : ∀ x ∈ cycle, x ∈ ids) :
    cycle.Perm ids :=
  (hnd.subperm fun _ hx => hsub _ hx).perm_of_length_le (le_of_eq hlen.symm)

/-- C1: for at least 2 distinct participants and any exclusion map, a
successful draw is a list of pairs in which every participant appears
exactly once as giver and exactly once as receiver, no pair is a
self-assignment, and following receiver pointers from any start visits all
participants exactly once before returning to the start — one single
Hamiltonian cycle. -/
theorem C1_draw_is_single_hamiltonian_cycle
    (participants : List Participant) (excl : Nat → List Nat) (rands : Nat → DrawRand)
    (pairs : List (Nat × Nat))
    (hids : (participants.map (fun p => p.id)).Nodup)
    (h2 : 2 ≤ participants.length)
    (hvalid : ∀ i, ValidRand (participants.map (fun p => p.id)) (rands i))
    (hsucc : generateHamiltonianCycle participants excl rands = some pairs) :
    (pairs.map Prod.fst).Perm (participants.map (fun p => p.id)) ∧
    (pairs.map Prod.snd).Perm (participants.map (fun p => p.id)) ∧
    (∀ pr ∈ pairs, pr.1 ≠ pr.2) ∧
    ∀ s ∈ participants.map (fun p => p.id),
      ((List.range participants.length).map (fun k => (nextOf pairs)^[k] s)).Perm
          (participants.map (fun p => p.id)) ∧
        (nextOf pairs)^[participants.length] s = s := by
  obtain ⟨cycle, rfl, hlen, hpos, hnd, hsub, hedges⟩ :=
    generateHamiltonianCycle_sound hvalid hsucc
  have hperm : cycle.Perm (participants.map (fun p => p.id)) :=
    cycle_perm_ids hnd hlen hsub
  have hcyclen : cycle.length = participants.length := by
    rw [hlen, List.length_map]
  refine ⟨?_, ?_, ?_, ?_⟩
  · rw [assignmentsOf_map_fst hpos]
    exact hperm
  · rw [assignmentsOf_map_snd hpos]
    exact (cycle.rotate_perm 1).trans hperm
  · intro pr hpr
    obtain ⟨i, hi, rfl⟩ := mem_assignmentsOf.mp hpr
    exact (canGiveTo_ne (hedges i hi)).symm
  · intro s hs
    have hs' : s ∈ cycle := hperm.mem_iff.mpr hs
    obtain ⟨⟨i, hi⟩, rfl⟩ := List.mem_iff_get.mp hs'
    have hgetD : cycle.get ⟨i, hi⟩ = cycle.getD i 0 :=
      (List.getD_eq_getElem _ _ hi).symm
    constructor
    · rw [hgetD, ← hcyclen, orbit_eq_rotate hnd hpos hi]
      exact (cycle.rotate_perm i).trans hperm
    · rw [hgetD, ← hcyclen, nextOf_iterate hnd hpos cycle.length i hi,
        Nat.add_mod_right, Nat.mod_eq_of_lt hi]

/-- C1 witness: a concrete 3-participant draw with no exclusions. -/
theorem C1_witness :
    ((([(1, 2), (2, 3), (3, 1)] : List (Nat × Nat)).map Prod.fst).Perm [1, 2, 3] ∧
     (([(1, 2), (2, 3), (3, 1)] : List (Nat × Nat)).map Prod.snd).Perm [1, 2, 3] ∧
     (∀ pr ∈ ([(1, 2), (2, 3), (3, 1)] : List (Nat × Nat)), pr.1 ≠ pr.2) ∧
     ∀ s ∈ [1, 2, 3],
       ((List.range 3).map (fun k => (nextOf [(1, 2), (2, 3), (3, 1)])^[k] s)).Perm [1, 2, 3] ∧
         (nextOf [(1, 2), (2, 3), (3, 1)])^[3] s = s) := by
  have h := C1_draw_is_single_hamiltonian_cycle
    [⟨1, "Alice", "A"⟩, ⟨2, "Bob", "B"⟩, ⟨3, "Cara", "C"⟩] (fun _ => [])
    (fun _ => ⟨[1, 2, 3], id⟩) [(1, 2), (2, 3), (3, 1)]
    (by decide) (by decide)
    (fun _ => ⟨List.Perm.refl _, fun l => List.Perm.refl l⟩) (by rfl)
  simpa using h

/-- C2: no pair of the exclusion map ever appears in a successful draw's
output — including the closing pair from the last cycle element back to
the first (every output pair is a cyclic edge, and every cyclic edge,
the closing one included, passes the `!excluded.includes(r)` filter). -/
theorem C2_exclusions_never_violated
    (participants : List Participant) (excl : Nat → List Nat) (rands : Nat → DrawRand)
    (pairs : List (Nat × Nat))
    (hvalid : ∀ i, ValidRand (participants.map (fun p => p.id)) (rands i))
    (hsucc : generateHamiltonianCycle participants excl rands = some pairs) :
    ∀ pr ∈ pairs, pr.2 ∉ excl pr.1 := by
  obtain ⟨cycle, rfl, _, _, _, _, hedges⟩ := generateHamiltonianCycle_sound hvalid hsucc
  intro pr hpr
  obtain ⟨i, hi, rfl⟩ := mem_assignmentsOf.mp hpr
  exact canGiveTo_not_excluded (hedges i hi)

/-- C2 witness: the 3-participant draw with exclusion 1 → 3 produces the
cycle 1 → 2, 2 → 3, 3 → 1 under identity shuffles, and its first pair
(1, 2) does not hit giver 1's exclusion list. -/
theorem C2_witness :
    (2 : Nat) ∉ (if (1 : Nat) = 1 then ([3] : List Nat) else []) :=
  C2_exclusions_never_violated
    [⟨1, "Alice", "A"⟩, ⟨2, "Bob", "B"⟩, ⟨3, "Cara", "C"⟩]
    (fun g => if g = 1 then [3] else [])
    (fun _ => ⟨[1, 2, 3], id⟩) [(1, 2), (2, 3), (3, 1)]
    (fun _ => ⟨List.Perm.refl _, fun l => List.Perm.refl l⟩) (by rfl)
    (1, 2) (by decide)

/-- C3: every call to `performDraw` and to `canPerformDraw` raises a
`TypeError` instead of returning a structured result, because
`Participant.findAllByOrganizer`, `Exclusion.getExclusionMapByOrganizer`
and `Assignment.clearAllByOrganizer` are not defined on the model objects
(only group-scoped variants exist). -/
theorem C3_model_calls_raise_typeError (env : DbEnv) (rands : Nat → DrawRand)
    (store : List Row) (organizerId : Nat) :
    performDrawJs env rands store organizerId =
        JsOutcome.typeError "Participant.findAllByOrganizer" ∧
      canPerformDrawJs env organizerId =
        JsOutcome.typeError "Participant.findAllByOrganizer" :=
  ⟨rfl, rfl⟩

/-- Exhaustive case analysis of `performDraw`: insufficient roster, no
valid cycle, or success with the replace-then-insert store update. -/
lemma performDraw_cases (participants : List Participant) (excl : Nat → List Nat)
    (rands : Nat → DrawRand) (store : List Row) :
    (participants.length < 2 ∧
      performDraw participants excl rands store = (⟨false, insufficientMsg, none⟩, store)) ∨
    (¬ participants.length < 2 ∧ generateHamiltonianCycle participants excl rands = none ∧
      performDraw participants excl rands store = (⟨false, noValidCycleMsg, none⟩, store)) ∨
    (∃ assignments, ¬ participants.length < 2 ∧
      generateHamiltonianCycle participants excl rands = some assignments ∧
      performDraw participants excl rands store =
        (⟨true, successMsg participants.length, some participants.length⟩,
          (createMany assignments (fun _ => false)
            (clearAllByGroup (participants.map (fun p => p.id)) store)).1)) := by
  by_cases hlt : participants.length < 2
  · left
    exact ⟨hlt, by rw [performDraw, if_pos hlt]⟩
  · rw [performDraw, if_neg hlt]
    cases hgen : generateHamiltonianCycle participants excl rands with
    | none => right; left; exact ⟨hlt, rfl, rfl⟩
    | some a => right; right; exact ⟨a, hlt, rfl, rfl⟩

/-- C10: with 0 or 1 participants, `performDraw` returns the
`InsufficientParticipants` structured failure, leaves the store untouched,
and never produces a cycle. -/
theorem C10_insufficient_participants (participants : List Participant)
    (excl : Nat → List Nat) (rands : Nat → DrawRand) (store : List Row)
    (h : participants.length < 2) :
    performDraw participants excl rands store = (⟨false, insufficientMsg, none⟩, store) := by
  rw [performDraw, if_pos h]

/-- C10 witness: the empty roster. -/
theorem C10_witness :
    ([] : List Participant).length < 2 ∧
      performDraw [] (fun _ => []) (fun _ => ⟨[], id⟩) [] =
        (⟨false, insufficientMsg, none⟩, []) :=
  ⟨by decide, C10_insufficient_participants [] (fun _ => []) (fun _ => ⟨[], id⟩) [] (by decide)⟩

/-- C8: both failure kinds of `performDraw` come back as structured
results carrying the success flag and a user-displayable message (one of
the two failure messages), and every failing call leaves the persisted
assignment store exactly as it was. -/
theorem C8_failures_structured_and_store_untouched (participants : List Participant)
    (excl : Nat → List Nat) (rands : Nat → DrawRand) (store : List Row)
    (hfail : (performDraw participants excl rands store).1.success = false) :
    ((performDraw participants excl rands store).1.message = insufficientMsg ∨
      (performDraw participants excl rands store).1.message = noValidCycleMsg) ∧
    (performDraw participants excl rands store).2 = store := by
  rcases performDraw_cases participants excl rands store with
    ⟨_, heq⟩ | ⟨_, _, heq⟩ | ⟨a, _, _, heq⟩
  · rw [heq]
    exact ⟨Or.inl rfl, rfl⟩
  · rw [heq]
    exact ⟨Or.inr rfl, rfl⟩
  · rw [heq] at hfail
    cases hfail

/-- C8 witness: the empty roster is a failing call. -/
theorem C8_witness :
    (performDraw [] (fun _ => []) (fun _ => ⟨[], id⟩) [⟨5, 6⟩]).1.success = false ∧
      ((performDraw [] (fun _ => []) (fun _ => ⟨[], id⟩) [⟨5, 6⟩]).1.message = insufficientMsg ∨
        (performDraw [] (fun _ => []) (fun _ => ⟨[], id⟩) [⟨5, 6⟩]).1.message = noValidCycleMsg) ∧
      (performDraw [] (fun _ => []) (fun _ => ⟨[], id⟩) [⟨5, 6⟩]).2 = [⟨5, 6⟩] :=
  ⟨by decide,
    C8_failures_structured_and_store_untouched [] (fun _ => []) (fun _ => ⟨[], id⟩) [⟨5, 6⟩]
      (by decide)⟩

/-- C7: decrypting an encryption of a receiver id returns the id, and two
`encrypt` calls on the same id with distinct internal randomness produce
distinct ciphertexts.  The `CryptoJS.AES` and JavaScript numeric builtins
are abstract, constrained by their documented behavior. -/
theorem C7_encrypt_decrypt_roundtrip {Ct : Type} (js : JsNum) (lib : CryptoLib Ct)
    (hjs : ∀ n, js.parseInt10 (js.toStr n) = n)
    (hround : ∀ m k s, lib.aesDecryptUtf8 (lib.aesEncrypt m k s) k = m)
    (hsalt : ∀ m k s s', s ≠ s' → lib.aesEncrypt m k s ≠ lib.aesEncrypt m k s')
    (receiverId : Nat) (s s' : Nat) (hss : s ≠ s') :
    Assignment.decrypt js lib (Assignment.encrypt js lib s receiverId) = receiverId ∧
    Assignment.encrypt js lib s receiverId ≠ Assignment.encrypt js lib s' receiverId := by
  constructor
  · rw [Assignment.decrypt, Assignment.encrypt, hround, hjs]
  · exact hsalt _ _ _ _ hss

/-- C7 witness: the concrete `witnessJsNum`/`witnessCrypto` instances at
id 5 with salts 0 and 1. -/
theorem C7_witness :
    Assignment.decrypt witnessJsNum witnessCrypto
        (Assignment.encrypt witnessJsNum witnessCrypto 0 5) = 5 ∧
    Assignment.encrypt witnessJsNum witnessCrypto 0 5 ≠
      Assignment.encrypt witnessJsNum witnessCrypto 1 5 :=
  C7_encrypt_decrypt_roundtrip witnessJsNum witnessCrypto
    (fun n => by simp [witnessJsNum])
    (fun m k s => rfl)
    (fun m k s s' hne hc => hne (congrArg (fun c => c.2.2) hc))
    5 0 1 (by decide)

lemma tryBuildCycle_none_of_empty {ids : List Nat} {excl : Nat → List Nat} {rand : DrawRand}
    (hval : ValidRand ids rand) (h2 : 2 ≤ ids.length)
    (hemp : ∀ g ∈ ids, canGiveTo ids excl g = []) :
    tryBuildCycle ids (canGiveTo ids excl) rand = none := by
  unfold tryBuildCycle
  cases hhead : rand.shuffled.head? with
  | none => rfl
  | some s0 =>
    have hs0 : s0 ∈ ids := hval.1.mem_iff.mp (List.mem_of_mem_head? hhead)
    have hshnil : rand.shufRec [] = [] := List.Perm.eq_nil (hval.2 [])
    obtain ⟨m, hm⟩ : ∃ m, ids.length = m + 1 := ⟨ids.length - 1, by omega⟩
    have hone : ([s0] : List Nat).length ≠ m + 1 := by
      simp only [List.length_singleton]
      omega
    have hbt : backtrack (canGiveTo ids excl) ids.length rand.shufRec ids.length [s0] =
        none := by
      rw [hm, backtrack, if_neg hone]
      show firstSome _ (rand.shufRec (canGiveTo ids excl s0)) = none
      rw [hemp s0 hs0, hshnil]
      rfl
    show (match backtrack (canGiveTo ids excl) ids.length rand.shufRec ids.length [s0] with
      | none => none
      | some rcycle => some (assignmentsOf rcycle.reverse)) = none
    rw [hbt]

/-- C6: the retry loop of `generateHamiltonianCycle` examines exactly the
attempts numbered 0 through 99 — random draws beyond the budget never
influence the result — and when every participant's eligible-receiver set
is empty after exclusions, every attempt fails and the engine returns the
`NoValidCycle` structured failure. -/
theorem C6_retry_budget_capped (participants : List Participant) (excl : Nat → List Nat)
    (rands rands' : Nat → DrawRand) (store : List Row)
    (hagree : ∀ i < 100, rands i = rands' i)
    (hvalid : ∀ i, ValidRand (participants.map (fun p => p.id)) (rands i))
    (hemp : ∀ g ∈ participants.map (fun p => p.id),
      canGiveTo (participants.map (fun p => p.id)) excl g = [])
    (h2 : 2 ≤ participants.length) :
    generateHamiltonianCycle participants excl rands =
        generateHamiltonianCycle participants excl rands' ∧
    performDraw participants excl rands store = (⟨false, noValidCycleMsg, none⟩, store) := by
  have h2' : 2 ≤ (participants.map (fun p => p.id)).length := by
    rw [List.length_map]; exact h2
  constructor
  · unfold generateHamiltonianCycle
    apply firstSome_congr
    intro a ha
    rw [hagree a (List.mem_range.mp ha)]
  · have hgen : generateHamiltonianCycle participants excl rands = none := by
      unfold generateHamiltonianCycle
      apply firstSome_eq_none
      intro a _
      exact tryBuildCycle_none_of_empty (hvalid a) h2' hemp
    rw [performDraw, if_neg (by omega), hgen]

/-- C6 witness: two participants who exclude each other in both
directions. -/
theorem C6_witness :
    generateHamiltonianCycle [⟨1, "A", "A"⟩, ⟨2, "B", "B"⟩]
        (fun g => if g = 1 then [2] else [1]) (fun _ => ⟨[1, 2], id⟩) =
      generateHamiltonianCycle [⟨1, "A", "A"⟩, ⟨2, "B", "B"⟩]
        (fun g => if g = 1 then [2] else [1]) (fun _ => ⟨[1, 2], id⟩) ∧
    performDraw [⟨1, "A", "A"⟩, ⟨2, "B", "B"⟩] (fun g => if g = 1 then [2] else [1])
        (fun _ => ⟨[1, 2], id⟩) [] =
      (⟨false, noValidCycleMsg, none⟩, []) :=
  C6_retry_budget_capped [⟨1, "A", "A"⟩, ⟨2, "B", "B"⟩]
    (fun g => if g = 1 then [2] else [1]) (fun _ => ⟨[1, 2], id⟩) (fun _ => ⟨[1, 2], id⟩) []
    (fun _ _ => rfl)
    (fun _ => ⟨List.Perm.refl _, fun l => List.Perm.refl l⟩)
    (by decide) (by decide)

lemma insertLoop_cases (failAt : Nat → Bool) :
    ∀ (items : List (Nat × Nat)) (i : Nat) (rows : List Row),
      insertLoop failAt items i rows =
          some (rows ++ items.map (fun p => (⟨p.1, p.2⟩ : Row))) ∨
        insertLoop failAt items i rows = none := by
  intro items
  induction items with
  | nil =>
    intro i rows
    left
    simp [insertLoop]
  | cons p rest ih =>
    intro i rows
    cases hf : failAt i with
    | true =>
      right
      simp [insertLoop, hf]
    | false =>
      rcases ih (i + 1) (rows ++ [⟨p.1, p.2⟩]) with h | h
      · left
        rw [insertLoop, if_neg (by simp [hf]), h]
        simp
      · right
        rw [insertLoop, if_neg (by simp [hf]), h]

/-- The `createMany` transaction is all-or-nothing: either every insert
lands, or the input rows come back unchanged. -/
lemma createMany_atomic (items : List (Nat × Nat)) (failAt : Nat → Bool) (rows : List Row) :
    createMany items failAt rows =
        (rows ++ items.map (fun p => (⟨p.1, p.2⟩ : Row)), true) ∨
      createMany items failAt rows = (rows, false) := by
  unfold createMany
  rcases insertLoop_cases failAt items 0 rows with h | h <;> rw [h]
  · left; rfl
  · right; rfl

/-- C4 counterexample: prior store holding the old draw for givers 1 and
2; the insert of the new draw fails on its second row.  The resulting
store is empty — the prior assignment set is gone, contradicting the
claim that a part-way failure leaves the complete prior set intact. -/
theorem C4_counterexample :
    persistDraw [1, 2] [(1, 2), (2, 1)] (fun i => i == 1) [⟨1, 2⟩, ⟨2, 1⟩] = ([], false) ∧
      ([] : List Row) ≠ [⟨1, 2⟩, ⟨2, 1⟩] := by
  constructor
  · rfl
  · decide

/-- C4 amended: only the inserts of `createMany` form one transaction;
the scope-clearing `DELETE` is a separate prior statement.  The store
never holds a mix of old and new rows: either the cleared store plus the
complete new set (success), or just the cleared store (insert failure) —
in the latter case the prior scope rows are already lost. -/
theorem C4_amended_clear_then_atomic_insert (memberIds : List Nat)
    (pairs : List (Nat × Nat)) (failAt : Nat → Bool) (rows : List Row) :
    persistDraw memberIds pairs failAt rows =
        (clearAllByGroup memberIds rows ++ pairs.map (fun p => (⟨p.1, p.2⟩ : Row)), true) ∨
      persistDraw memberIds pairs failAt rows = (clearAllByGroup memberIds rows, false) := by
  unfold persistDraw
  exact createMany_atomic pairs failAt (clearAllByGroup memberIds rows)

lemma sendLoop_spec (send : DecRow → Option String) :
    ∀ (l : List DecRow) (sent failed : Nat) (errors : List (String × String)),
      sendLoop send l sent failed errors =
        (sent + (l.filter (fun a => (send a).isNone)).length,
          failed + (l.filter (fun a => (send a).isSome)).length,
          errors ++ (l.filter (fun a => (send a).isSome)).map
            (fun a => (a.giver_email, (send a).getD ""))) := by
  intro l
  induction l with
  | nil =>
    intro sent failed errors
    simp [sendLoop]
  | cons a rest ih =>
    intro sent failed errors
    cases hs : send a with
    | none =>
      simp only [sendLoop, hs, ih, List.filter_cons, Option.isNone_none, Option.isSome_none,
        if_true, Bool.false_eq_true, if_false, List.length_cons, Prod.mk.injEq,
        and_true, true_and]
      omega
    | some e =>
      simp only [sendLoop, hs, ih, List.filter_cons, Option.isNone_some, Option.isSome_some,
        if_true, Bool.false_eq_true, if_false, List.length_cons, List.map_cons, Prod.mk.injEq,
        Option.getD_some, DecRow.giver_email, List.append_assoc, List.singleton_append,
        and_true, true_and]
      omega

lemma findAllDecryptedByGroup_some {dec : Nat → Option Nat} :
    ∀ {rows : List ARow} {ds : List DecRow},
      findAllDecryptedByGroup dec rows = some ds →
        ds.map (fun d => d.row) = rows ∧
        ∀ d ∈ ds, dec d.row.encrypted_receiver = some d.receiver_id := by
  intro rows
  induction rows with
  | nil =>
    intro ds h
    simp only [findAllDecryptedByGroup] at h
    cases h
    exact ⟨rfl, by simp⟩
  | cons a rest ih =>
    intro ds h
    simp only [findAllDecryptedByGroup] at h
    split at h
    · cases h
    · rename_i rid hrid
      split at h
      · cases h
      · rename_i ds' hds'
        cases h
        obtain ⟨hmap, hdec⟩ := ih hds'
        refine ⟨by simp [hmap], ?_⟩
        intro d hd
        rcases List.mem_cons.mp hd with rfl | hd'
        · exact hrid
        · exact hdec d hd'

/-- C9 counterexample: a group with one already-sent assignment whose
ciphertext no longer decrypts, plus one pending assignment that would
decrypt and send fine.  `sendAllEmails` re-decrypts the already-sent row
inside `findAllDecryptedByGroup`, the decryption error aborts the whole
call (`none`: the thrown error propagates), and the pending recipient is
never processed — the failure is not isolated to one assignment, and the
batch result promised by the claim is never produced. -/
theorem C9_counterexample :
    (⟨1, 10, "a@x", true, 999⟩ : ARow).email_sent = true ∧
    sendAllEmails true (fun c => if c = 999 then none else some c) (fun _ => none)
        [⟨1, 10, "a@x", true, 999⟩, ⟨2, 11, "b@x", false, 42⟩] = none := by
  exact ⟨rfl, rfl⟩

/-- C9 amended: a decryption failure on ANY of the group's assignments —
already sent or not — aborts the whole `sendAllEmails` call (sent rows are
re-decrypted on every call).  When every ciphertext decrypts, only the
pending (not yet sent) assignments are processed: per-recipient send
failures are caught, the loop continues, and the result reports the sent
count, the failed count and the failed recipients with their errors. -/
theorem C9_amended_batch_semantics (dec : Nat → Option Nat) (send : DecRow → Option String)
    (rows : List ARow) :
    (findAllDecryptedByGroup dec rows = none → sendAllEmails true dec send rows = none) ∧
    ∀ ds, findAllDecryptedByGroup dec rows = some ds →
      ds.map (fun d => d.row) = rows ∧
      ∃ res, sendAllEmails true dec send rows = some res ∧
        res.sent = ((ds.filter (fun a => !a.row.email_sent)).filter
            (fun a => (send a).isNone)).length ∧
        res.failed = ((ds.filter (fun a => !a.row.email_sent)).filter
            (fun a => (send a).isSome)).length ∧
        res.errors = ((ds.filter (fun a => !a.row.email_sent)).filter
            (fun a => (send a).isSome)).map
            (fun a => (a.giver_email, (send a).getD "")) ∧
        (res.success = true ↔ res.failed = 0) := by
  constructor
  · intro hnone
    unfold sendAllEmails
    rw [hnone]
    rfl
  · intro ds hds
    have hsend : sendAllEmails true dec send rows =
        (if (ds.filter (fun a => !a.row.email_sent)).length = 0 then
          some ⟨true, "Tous les emails ont deja ete envoyes.", 0, 0, []⟩
        else
          match sendLoop send (ds.filter (fun a => !a.row.email_sent)) 0 0 [] with
          | (sent, failed, errors) =>
            if 0 < failed then
              some ⟨false,
                toString sent ++ " emails envoyes, " ++ toString failed ++ " echecs.",
                sent, failed, errors⟩
            else
              some ⟨true, toString sent ++ " emails envoyes avec succes.", sent, failed,
                errors⟩) := by
      unfold sendAllEmails
      rw [hds]
      rfl
    refine ⟨(findAllDecryptedByGroup_some hds).1, ?_⟩
    by_cases hpe : (ds.filter (fun a => !a.row.email_sent)).length = 0
    · have hpnil : ds.filter (fun a => !a.row.email_sent) = [] :=
        List.length_eq_zero.mp hpe
      rw [hsend, if_pos hpe]
      exact ⟨_, rfl, by simp [hpnil], by simp [hpnil], by simp [hpnil], by simp⟩
    · rw [hsend, if_neg hpe, sendLoop_spec]
      simp only [Nat.zero_add, List.nil_append]
      by_cases hf : 0 <
          ((ds.filter (fun a => !a.row.email_sent)).filter (fun a => (send a).isSome)).length
      · rw [if_pos hf]
        exact ⟨_, rfl, rfl, rfl, rfl,
          by simp only [Bool.false_eq_true, false_iff]; omega⟩
      · rw [if_neg hf]
        exact ⟨_, rfl, rfl, rfl, rfl, by simp only [true_iff]; omega⟩

/-- C9 witness: all ciphertexts decrypt; of the two pending recipients the
send fails for one; the batch continues and reports 1 sent, 1 failed,
naming the failed recipient. -/
theorem C9_witness :
    ∃ res, sendAllEmails true (fun c => some c)
        (fun a => if a.row.id = 2 then some "boom" else none)
        [⟨1, 10, "a@x", true, 7⟩, ⟨2, 11, "b@x", false, 8⟩, ⟨3, 12, "c@x", false, 9⟩] =
          some res ∧
      res.sent = 1 ∧ res.failed = 1 ∧ res.errors = [("b@x", "boom")] ∧
      res.success = false := by
  obtain ⟨-, res, hres, hsent, hfailed, herr, hsucc⟩ :=
    (C9_amended_batch_semantics (fun c => some c)
      (fun a => if a.row.id = 2 then some "boom" else none)
      [⟨1, 10, "a@x", true, 7⟩, ⟨2, 11, "b@x", false, 8⟩, ⟨3, 12, "c@x", false, 9⟩]).2
      [⟨⟨1, 10, "a@x", true, 7⟩, 7⟩, ⟨⟨2, 11, "b@x", false, 8⟩, 8⟩,
        ⟨⟨3, 12, "c@x", false, 9⟩, 9⟩] rfl
  have hf1 : res.failed = 1 := by rw [hfailed]; rfl
  refine ⟨res, hres, by rw [hsent]; rfl, hf1, by rw [herr]; rfl, ?_⟩
  cases hb : res.success with
  | false => rfl
  | true =>
    have h0 : res.failed = 0 := hsucc.mp hb
    omega

set_option maxRecDepth 8192 in
/-- C5 counterexample: participant 1 (Alice Ambert) has both other
participants excluded, so her eligible-receiver set is empty.
`canPerformDraw` names her, but `performDraw` does not fail with a failure
naming the blocked participant: it returns the generic no-valid-cycle
message, which does not mention "Alice" — and only after running its
attempt loop, not before cycle construction. -/
theorem C5_counterexample :
    (performDraw [⟨1, "Alice", "Ambert"⟩, ⟨2, "Bob", "Brun"⟩, ⟨3, "Caro", "Cler"⟩]
        (fun g => if g = 1 then [2, 3] else []) (fun _ => ⟨[1, 2, 3], id⟩) []).1 =
      ⟨false, noValidCycleMsg, none⟩ ∧
    ¬ mentions "Alice" noValidCycleMsg ∧
    canPerformDraw [⟨1, "Alice", "Ambert"⟩, ⟨2, "Bob", "Brun"⟩, ⟨3, "Caro", "Cler"⟩]
        (fun g => if g = 1 then [2, 3] else []) =
      ⟨false, some (noReceiverMsg ⟨1, "Alice", "Ambert"⟩)⟩ ∧
    mentions "Alice" (noReceiverMsg ⟨1, "Alice", "Ambert"⟩) := by
  refine ⟨rfl, ?_, rfl, ?_⟩
  · rw [mentions, noValidCycleMsg]
    decide
  · rw [mentions, noReceiverMsg]
    decide

/-- C5 amended: `canPerformDraw` alone performs the cheap feasibility
check and names the first blocked participant in its reason string;
`performDraw` has no such pre-check — when some participant's
eligible-receiver set is empty it fails with the generic no-valid-cycle
message (which is a constant naming nobody), after its attempt loop. -/
theorem C5_amended_feasibility_check_only_in_canPerformDraw
    (participants : List Participant) (excl : Nat → List Nat) (rands : Nat → DrawRand)
    (store : List Row) (q : Participant)
    (hids : (participants.map (fun r => r.id)).Nodup)
    (hvalid : ∀ i, ValidRand (participants.map (fun r => r.id)) (rands i))
    (h2 : 2 ≤ participants.length)
    (hblocked : ∃ p ∈ participants,
      canGiveTo (participants.map (fun r => r.id)) excl p.id = [])
    (hfind : participants.find?
        (fun r =>
          decide ((participants.length : Int) - 1 - ((excl r.id).length : Int) < 1)) =
      some q) :
    canPerformDraw participants excl = ⟨false, some (noReceiverMsg q)⟩ ∧
    performDraw participants excl rands store = (⟨false, noValidCycleMsg, none⟩, store) := by
  constructor
  · rw [canPerformDraw, if_neg (by omega), hfind]
  · have hgen : generateHamiltonianCycle participants excl rands = none := by
      cases hgen : generateHamiltonianCycle participants excl rands with
      | none => rfl
      | some pairs =>
        exfalso
        obtain ⟨p, hp, hempty⟩ := hblocked
        obtain ⟨cycle, -, hlen, hpos, hnd, hsub, hedges⟩ :=
          generateHamiltonianCycle_sound hvalid hgen
        have hperm := cycle_perm_ids hnd hlen hsub
        have hpid : p.id ∈ cycle := hperm.mem_iff.mpr (List.mem_map.mpr ⟨p, hp, rfl⟩)
        obtain ⟨⟨i, hi⟩, hget⟩ := List.mem_iff_get.mp hpid
        have hedge := hedges i hi
        rw [List.getD_eq_getElem _ _ hi] at hedge
        rw [List.get_eq_getElem] at hget
        rw [hget, hempty] at hedge
        exact (List.not_mem_nil _) hedge
    rw [performDraw, if_neg (by omega), hgen]

set_option maxRecDepth 8192 in
/-- C5 amended witness: the Alice-blocked roster. -/
theorem C5_amended_witness :
    canPerformDraw [⟨1, "Alice", "Ambert"⟩, ⟨2, "Bob", "Brun"⟩, ⟨3, "Caro", "Cler"⟩]
        (fun g => if g = 1 then [2, 3] else []) =
      ⟨false, some (noReceiverMsg ⟨1, "Alice", "Ambert"⟩)⟩ ∧
    performDraw [⟨1, "Alice", "Ambert"⟩, ⟨2, "Bob", "Brun"⟩, ⟨3, "Caro", "Cler"⟩]
        (fun g => if g = 1 then [2, 3] else []) (fun _ => ⟨[1, 2, 3], id⟩) [] =
      (⟨false, noValidCycleMsg, none⟩, []) :=
  C5_amended_feasibility_check_only_in_canPerformDraw
    [⟨1, "Alice", "Ambert"⟩, ⟨2, "Bob", "Brun"⟩, ⟨3, "Caro", "Cler"⟩]
    (fun g => if g = 1 then [2, 3] else []) (fun _ => ⟨[1, 2, 3], id⟩) []
    ⟨1, "Alice", "Ambert"⟩
    (by decide)
    (fun _ => ⟨List.Perm.refl _, fun l => List.Perm.refl l⟩)
    (by decide)
    ⟨⟨1, "Alice", "Ambert"⟩, by decide, by decide⟩
    (by decide)
